import Mathlib

/-!
Verification of the needle (`Expect`) layer and the `Session::interact`
echo handling of the expectrl repository.

Embedding conventions:
* byte buffers (`&[u8]`) are `List Nat`;
* `Result<Option<Match>, Error>` is `Except Error (Option Match)`;
* the `regex` crate is an external dependency: a compiled regex is
  modelled by its `find` function `List Nat → Option Match`, and
  `regex::bytes::Regex::new` by a parameter
  `compile : String → Option (List Nat → Option Match)` whose `none`
  result stands for a compilation error.
-/

namespace Expectrl

/-- The error kinds used by the needle layer and `interact`
(`RegexParsing` for regex compilation failure, `ioError` for an I/O
failure inside the interact loop, `unknown` for wrapped errors). -/
inductive Error where
  | RegexParsing
  | ioError
  | unknown
deriving DecidableEq

/-- `Match`: a half-open byte range `[start, stop)` inside the buffer a
needle consulted (`struct Match { start: usize, end: usize }`; the Rust
field `end` is named `stop` here because `end` is a Lean keyword). -/
structure Match where
  start : Nat
  stop : Nat
deriving DecidableEq

/-- `Match::new(start, end)`. -/
def Match.new (start stop : Nat) : Match := ⟨start, stop⟩

/-- The result type of `Expect::expect`. -/
abbrev ExpectResult := Except Error (Option Match)

/-- `true` exactly on `Ok` results. -/
def isOkE : ExpectResult → Bool
  | Except.ok _ => true
  | Except.error _ => false

/-- `impl Expect for Eof`: match `[0, buf.len())` when the `eof` flag is
set, else no match. -/
def eofExpect (buf : List Nat) (eof : Bool) : ExpectResult :=
  match eof with
  | true => Except.ok (some (Match.new 0 buf.length))
  | false => Except.ok none

/-- `impl Expect for NBytes` with `NBytes(n)` flattened to the count `n`:
match `[0, n)` when `buf.len() > n`, else no match. -/
def nbytesExpect (n : Nat) (buf : List Nat) (_ : Bool) : ExpectResult :=
  if buf.length > n then Except.ok (some (Match.new 0 n)) else Except.ok none

/-- The slice `&buf[l..r]`. -/
def subslice (buf : List Nat) (l r : Nat) : List Nat :=
  (buf.drop l).take (r - l)

/-- The search loop of `impl<B: AsRef<[u8]>> Expect for B`:
`for l_bound in 0..buf.len()`, computing `r_bound = l_bound + needle.len()`,
returning `None` as soon as `r_bound > buf.len()`, and the first window
equal to the needle otherwise. -/
def literalFind (needle buf : List Nat) (l : Nat) : Option Match :=
  if h : l < buf.length then
    if l + needle.length > buf.length then
      none
    else if needle = subslice buf l (l + needle.length) then
      some (Match.new l (l + needle.length))
    else
      literalFind needle buf (l + 1)
  else
    none
termination_by buf.length - l
decreasing_by simp_wf; omega

/-- `impl<B: AsRef<[u8]>> Expect for B`: reject buffers shorter than the
needle, then run the search loop from `l_bound = 0`. -/
def bytesExpect (needle buf : List Nat) (_ : Bool) : ExpectResult :=
  if buf.length < needle.length then
    Except.ok none
  else
    Except.ok (literalFind needle buf 0)

/-- `impl<Re: AsRef<str>> Expect for Regex<Re>`: compile the pattern,
mapping a compilation failure to `Error::RegexParsing` via `?`, then
return the engine's leftmost find on the buffer. -/
def regexExpect (compile : String → Option (List Nat → Option Match))
    (pat : String) (buf : List Nat) (_ : Bool) : ExpectResult :=
  match compile pat with
  | none => Except.error Error.RegexParsing
  | some f => Except.ok (f buf)

/-- `needle` occurs in `buf` at position `s`: the window
`buf[s .. s + needle.length]` exists and equals `needle`. -/
def occursAt (needle buf : List Nat) (s : Nat) : Prop :=
  s + needle.length ≤ buf.length ∧ subslice buf s (s + needle.length) = needle

instance (needle buf : List Nat) (s : Nat) : Decidable (occursAt needle buf s) :=
  inferInstanceAs (Decidable (_ ∧ _))

/-- If the search loop started at `l` returns a match `m`, then the needle
occurs at `m.start`, the match spans exactly the needle's length, and no
occurrence exists between `l` and `m.start`. -/
lemma literalFind_some (needle buf : List Nat) :
    ∀ k l m, buf.length - l ≤ k → literalFind needle buf l = some m →
      occursAt needle buf m.start ∧ m.stop = m.start + needle.length ∧ l ≤ m.start ∧
        ∀ t, l ≤ t → t < m.start → ¬ occursAt needle buf t := by
  intro k
  induction k with
  | zero =>
    intro l m hk hf
    unfold literalFind at hf
    rw [dif_neg (by omega)] at hf
    exact absurd hf (by simp)
  | succ k ih =>
    intro l m hk hf
    unfold literalFind at hf
    by_cases hl : l < buf.length
    · rw [dif_pos hl] at hf
      by_cases hr : l + needle.length > buf.length
      · rw [if_pos hr] at hf
        exact absurd hf (by simp)
      · rw [if_neg hr] at hf
        by_cases heq : needle = subslice buf l (l + needle.length)
        · rw [if_pos heq] at hf
          have hm : Match.new l (l + needle.length) = m := Option.some.inj hf
          subst hm
          refine ⟨⟨show l + needle.length ≤ buf.length by omega, heq.symm⟩, rfl,
            Nat.le_refl _, ?_⟩
          intro t h1 h2
          exact absurd (Nat.lt_of_le_of_lt h1 h2) (Nat.lt_irrefl _)
        · rw [if_neg heq] at hf
          obtain ⟨hocc, hstop, hle, hmin⟩ := ih (l + 1) m (by omega) hf
          refine ⟨hocc, hstop, by omega, ?_⟩
          intro t h1 h2
          rcases Nat.eq_or_lt_of_le h1 with h1 | h1
          · subst h1
            intro hc
            exact heq hc.2.symm
          · exact hmin t h1 h2
    · rw [dif_neg hl] at hf
      exact absurd hf (by simp)

/-- If the search loop started at `l` returns no match for a non-empty
needle, the needle occurs at no position `t ≥ l`. -/
lemma literalFind_none (needle buf : List Nat) (hne : needle ≠ []) :
    ∀ k l, buf.length - l ≤ k → literalFind needle buf l = none →
      ∀ t, l ≤ t → ¬ occursAt needle buf t := by
  have hlen : 0 < needle.length := List.length_pos.mpr hne
  intro k
  induction k with
  | zero =>
    intro l hk _ t hlt hocc
    have := hocc.1
    omega
  | succ k ih =>
    intro l hk hf t hlt hocc
    unfold literalFind at hf
    by_cases hl : l < buf.length
    · rw [dif_pos hl] at hf
      by_cases hr : l + needle.length > buf.length
      · have := hocc.1
        omega
      · rw [if_neg hr] at hf
        by_cases heq : needle = subslice buf l (l + needle.length)
        · rw [if_pos heq] at hf
          exact absurd hf (by simp)
        · rw [if_neg heq] at hf
          rcases Nat.eq_or_lt_of_le hlt with h1 | h1
          · subst h1
            exact heq hocc.2.symm
          · exact ih (l + 1) (by omega) hf t h1 hocc
    · have := hocc.1
      omega

/-- Claim C1: `NBytes(n).expect(buf, eof)` returns `Ok(Some(Match(0, n)))`
iff `len(buf) > n` (strictly), and `Ok(None)` iff `len(buf) ≤ n`; in
particular a buffer of length exactly `n` never matches. -/
theorem claim1_nbytes_strict (n : Nat) (buf : List Nat) (eof : Bool) :
    (nbytesExpect n buf eof = Except.ok (some (Match.new 0 n)) ↔ n < buf.length)
    ∧ (nbytesExpect n buf eof = Except.ok none ↔ buf.length ≤ n) := by
  unfold nbytesExpect
  by_cases h : buf.length > n
  · rw [if_pos h]
    constructor
    · exact ⟨fun _ => h, fun _ => rfl⟩
    · exact ⟨fun heq => by simp at heq, fun hle => by omega⟩
  · rw [if_neg h]
    constructor
    · exact ⟨fun heq => by simp at heq, fun hlt => by omega⟩
    · exact ⟨fun _ => by omega, fun _ => rfl⟩

/-- Claim C4: `Eof.expect(buf, eof)` returns `Ok(Some(Match(0, len(buf))))`
when `eof` is set, `Ok(None)` when it is not, and never an error. -/
theorem claim4_eof_flag (buf : List Nat) :
    eofExpect buf true = Except.ok (some (Match.new 0 buf.length))
    ∧ eofExpect buf false = Except.ok none
    ∧ ∀ eof, isOkE (eofExpect buf eof) = true := by
  refine ⟨rfl, rfl, ?_⟩
  intro eof
  cases eof <;> rfl

/-- Claim C9: on an empty buffer the literal matcher returns `Ok(None)`
for every needle, the empty needle included. -/
theorem claim9_literal_empty_buffer (needle : List Nat) (eof : Bool) :
    bytesExpect needle [] eof = Except.ok none := by
  cases needle with
  | nil =>
    unfold bytesExpect
    rw [if_neg (by simp)]
    unfold literalFind
    rw [dif_neg (by simp)]
  | cons a as =>
    unfold bytesExpect
    rw [if_pos (by simp)]

/-- Claim C2: for a non-empty literal needle, `expect` returns
`Ok(Some(Match(s, s + len(needle))))` exactly when `s` is the leftmost
occurrence of the needle in the buffer, and `Ok(None)` exactly when the
needle does not occur at all. -/
theorem claim2_literal_leftmost (needle buf : List Nat) (eof : Bool) (s : Nat)
    (hne : needle ≠ []) :
    (bytesExpect needle buf eof = Except.ok (some (Match.new s (s + needle.length))) ↔
      occursAt needle buf s ∧ ∀ t, t < s → ¬ occursAt needle buf t)
    ∧ (bytesExpect needle buf eof = Except.ok none ↔
      ∀ t, ¬ occursAt needle buf t) := by
  have hlen : 0 < needle.length := List.length_pos.mpr hne
  unfold bytesExpect
  by_cases hsz : buf.length < needle.length
  · rw [if_pos hsz]
    have hno : ∀ t, ¬ occursAt needle buf t := by
      intro t h
      have := h.1
      omega
    constructor
    · constructor
      · intro heq
        exact absurd heq (by simp)
      · rintro ⟨hoccs, _⟩
        exact absurd hoccs (hno s)
    · exact iff_of_true rfl hno
  · rw [if_neg hsz]
    cases hf : literalFind needle buf 0 with
    | none =>
      have hnone := literalFind_none needle buf hne buf.length 0 (by omega) hf
      constructor
      · constructor
        · intro heq
          exact absurd heq (by simp)
        · rintro ⟨hoccs, _⟩
          exact absurd hoccs (hnone s (Nat.zero_le _))
      · exact iff_of_true rfl (fun t => hnone t (Nat.zero_le _))
    | some m =>
      obtain ⟨hocc, hstop, _, hmin⟩ :=
        literalFind_some needle buf buf.length 0 m (by omega) hf
      constructor
      · constructor
        · intro heq
          have hm : m = Match.new s (s + needle.length) :=
            Option.some.inj (Except.ok.inj heq)
          subst hm
          exact ⟨hocc, fun t ht => hmin t (Nat.zero_le _) ht⟩
        · rintro ⟨hoccs, hmins⟩
          have h1 : s ≤ m.start := by
            by_contra hc
            push_neg at hc
            exact hmins m.start hc hocc
          have h2 : m.start ≤ s := by
            by_contra hc
            push_neg at hc
            exact hmin s (Nat.zero_le _) hc hoccs
          have hms : m.start = s := Nat.le_antisymm h2 h1
          have hm : m = Match.new s (s + needle.length) := by
            cases m with
            | mk a b =>
              dsimp at hms hstop
              subst hms
              subst hstop
              rfl
          rw [hm]
      · constructor
        · intro heq
          exact absurd heq (by simp)
        · intro hall
          exact absurd hocc (hall m.start)

/-- Claim C3 fails as stated: on the empty buffer the search loop
`for l_bound in 0..buf.len()` runs zero iterations, so the empty literal
needle returns `Ok(None)`, not `Ok(Some(Match(0, 0)))`. -/
theorem claim3_empty_needle_cex :
    bytesExpect [] [] true ≠ Except.ok (some (Match.new 0 0)) := by
  unfold bytesExpect
  rw [if_neg (by simp)]
  unfold literalFind
  rw [dif_neg (by simp)]
  simp

/-- Claim C3 amended: the empty literal needle matches at `[0, 0)` on
every non-empty buffer regardless of the eof flag; on the empty buffer it
returns `Ok(None)`. -/
theorem claim3_empty_needle_amended (buf : List Nat) (eof : Bool) (hbuf : buf ≠ []) :
    bytesExpect [] buf eof = Except.ok (some (Match.new 0 0)) := by
  cases buf with
  | nil => exact absurd rfl hbuf
  | cons a as =>
    unfold bytesExpect
    rw [if_neg (by simp)]
    unfold literalFind
    rw [dif_pos (by simp)]
    rw [if_neg (by simp)]
    rw [if_pos (by simp [subslice])]
    rfl

/-- Claim C5: the regex needle errors with `RegexParsing` exactly when
the pattern fails to compile, returns the engine's find on every valid
pattern, and the `Eof`, `NBytes` and literal needles never error. -/
theorem claim5_error_taxonomy (compile : String → Option (List Nat → Option Match))
    (pat : String) (buf : List Nat) (eof : Bool) :
    (regexExpect compile pat buf eof = Except.error Error.RegexParsing ↔
      compile pat = none)
    ∧ (∀ e, regexExpect compile pat buf eof = Except.error e → e = Error.RegexParsing)
    ∧ (∀ f, compile pat = some f →
        regexExpect compile pat buf eof = Except.ok (f buf))
    ∧ isOkE (eofExpect buf eof) = true
    ∧ (∀ n, isOkE (nbytesExpect n buf eof) = true)
    ∧ (∀ needle, isOkE (bytesExpect needle buf eof) = true) := by
  refine ⟨?_, ?_, ?_, ?_, ?_, ?_⟩
  · cases hc : compile pat with
    | none => simp [regexExpect, hc]
    | some f => simp [regexExpect, hc]
  · intro e he
    cases hc : compile pat with
    | none =>
      simp [regexExpect, hc] at he
      exact he.symm
    | some f =>
      simp [regexExpect, hc] at he
  · intro f hf
    simp [regexExpect, hf]
  · cases eof <;> rfl
  · intro n
    unfold nbytesExpect
    split <;> rfl
  · intro needle
    unfold bytesExpect
    split <;> rfl

/-- Claim C6: the regex, `NBytes` and literal needles ignore the eof
flag, while the `Eof` needle's result depends on it. -/
theorem claim6_eof_flag_only_eof (buf : List Nat) :
    (∀ compile pat, regexExpect compile pat buf true = regexExpect compile pat buf false)
    ∧ (∀ n, nbytesExpect n buf true = nbytesExpect n buf false)
    ∧ (∀ needle, bytesExpect needle buf true = bytesExpect needle buf false)
    ∧ eofExpect buf true ≠ eofExpect buf false := by
  refine ⟨fun _ _ => rfl, fun _ => rfl, fun _ => rfl, ?_⟩
  simp [eofExpect]

/-- Claim C7: every built-in needle is deterministic on identical
`(buf, eof)` inputs; purity and non-mutation of the buffer hold by
construction of the functional embedding (`expect` takes `&self` and
`&[u8]` in the source). -/
theorem claim7_deterministic (buf1 buf2 : List Nat) (e1 e2 : Bool)
    (hb : buf1 = buf2) (he : e1 = e2) :
    eofExpect buf1 e1 = eofExpect buf2 e2
    ∧ (∀ n, nbytesExpect n buf1 e1 = nbytesExpect n buf2 e2)
    ∧ (∀ needle, bytesExpect needle buf1 e1 = bytesExpect needle buf2 e2)
    ∧ (∀ compile pat, regexExpect compile pat buf1 e1 = regexExpect compile pat buf2 e2) := by
  subst hb
  subst he
  exact ⟨rfl, fun _ => rfl, fun _ => rfl, fun _ _ => rfl⟩

/-- Claim C10: every match a built-in needle returns is a well-formed
range in the buffer, with the exact span for `NBytes` and literal
needles; for the regex needle this is conditional on the external engine
returning in-bounds matches. -/
theorem claim10_match_well_formed (buf : List Nat) (eof : Bool) (m : Match) :
    (eofExpect buf eof = Except.ok (some m) →
      m.start ≤ m.stop ∧ m.stop ≤ buf.length)
    ∧ (∀ n, nbytesExpect n buf eof = Except.ok (some m) →
        (m.start ≤ m.stop ∧ m.stop ≤ buf.length) ∧ m.stop - m.start = n)
    ∧ (∀ needle, bytesExpect needle buf eof = Except.ok (some m) →
        (m.start ≤ m.stop ∧ m.stop ≤ buf.length) ∧ m.stop - m.start = needle.length)
    ∧ (∀ compile pat,
        (∀ f, compile pat = some f → ∀ b m2, f b = some m2 →
          m2.start ≤ m2.stop ∧ m2.stop ≤ b.length) →
        regexExpect compile pat buf eof = Except.ok (some m) →
        m.start ≤ m.stop ∧ m.stop ≤ buf.length) := by
  refine ⟨?_, ?_, ?_, ?_⟩
  · intro h
    cases eof with
    | true =>
      have hm : Match.new 0 buf.length = m := Option.some.inj (Except.ok.inj h)
      subst hm
      exact ⟨Nat.zero_le _, Nat.le_refl _⟩
    | false =>
      exact absurd h (by simp [eofExpect])
  · intro n h
    unfold nbytesExpect at h
    by_cases hc : buf.length > n
    · rw [if_pos hc] at h
      have hm : Match.new 0 n = m := Option.some.inj (Except.ok.inj h)
      subst hm
      exact ⟨⟨Nat.zero_le _, show n ≤ buf.length by omega⟩, show n - 0 = n by omega⟩
    · rw [if_neg hc] at h
      exact absurd h (by simp)
  · intro needle h
    unfold bytesExpect at h
    by_cases hsz : buf.length < needle.length
    · rw [if_pos hsz] at h
      exact absurd h (by simp)
    · rw [if_neg hsz] at h
      have hf : literalFind needle buf 0 = some m := Except.ok.inj h
      obtain ⟨hocc, hstop, _, _⟩ :=
        literalFind_some needle buf buf.length 0 m (by omega) hf
      have h1 := hocc.1
      exact ⟨⟨by omega, by omega⟩, by omega⟩
  · intro compile pat hwf h
    cases hc : compile pat with
    | none => simp [regexExpect, hc] at h
    | some f =>
      simp [regexExpect, hc] at h
      exact hwf f hc buf m h

/-- The child-side terminal state relevant to `Session::interact` on
unix: the slave termios ECHO bit. -/
structure ChildTermios where
  echo : Bool
deriving DecidableEq

/-- Modelled from the spec: `get_echo` (§4.B, "get_echo() / set_echo(bool):
toggle slave termios ECHO bit") is not under src/; it reads the slave
ECHO bit. -/
def get_echo (st : ChildTermios) : Bool := st.echo

/-- Modelled from the spec: `set_echo` (§4.B) is not under src/; it sets
the slave termios ECHO bit. `interact` discards its result
(`let _ = self.set_echo(..)`), so it is modelled as always succeeding. -/
def set_echo (st : ChildTermios) (b : Bool) : ChildTermios := { st with echo := b }

/-- Modelled from the spec: `interact_in_terminal` (§4.G) is not under
src/; it bridges the host terminal and the child PTY and ends on child
exit, escape sequence, I/O error or user stop. It forwards bytes and does
not itself toggle the child's termios ECHO bit, so it is modelled by its
outcome alone, leaving the child terminal state unchanged. -/
def interact_in_terminal (st : ChildTermios) (outcome : Except Error Unit) :
    ChildTermios × Except Error Unit := (st, outcome)

/-- `Session::interact` (unix, sync, src/session/mod.rs lines 163-186):
read `is_echo`; if echo was off, turn it on; run the interact loop,
propagating its error with `?`; only on success, turn echo back off when
it had been off. -/
def interact (st : ChildTermios) (outcome : Except Error Unit) :
    ChildTermios × Except Error Unit :=
  let is_echo := get_echo st
  let st1 := if !is_echo then set_echo st true else st
  match interact_in_terminal st1 outcome with
  | (st2, Except.error e) => (st2, Except.error e)
  | (st2, Except.ok _) =>
    let st3 := if !is_echo then set_echo st2 false else st2
    (st3, Except.ok ())

/-- Claim C8 evaluated: when the child's ECHO was disabled and the
interact loop fails with an I/O error, the `?` operator returns before
the restoring `set_echo(false)` runs, so `interact` returns with ECHO
still enabled — the claimed restoration does not happen on this exit
path. On the success path, and when ECHO was already enabled, the claim's
behaviour does hold. -/
theorem claim8_interact_echo_leak :
    interact ⟨false⟩ (Except.error Error.ioError)
      = (⟨true⟩, Except.error Error.ioError)
    ∧ interact ⟨false⟩ (Except.ok ()) = (⟨false⟩, Except.ok ())
    ∧ interact ⟨true⟩ (Except.ok ()) = (⟨true⟩, Except.ok ())
    ∧ interact ⟨true⟩ (Except.error Error.ioError)
      = (⟨true⟩, Except.error Error.ioError) :=
  ⟨rfl, rfl, rfl, rfl⟩

/-- A concrete always-compiling, never-matching regex engine used to
instantiate the claim C5 theorem. -/
def compileStub : String → Option (List Nat → Option Match) :=
  fun _ => some (fun _ => none)

/-- Witness for claim C1 at `n = 2`, `buf = [1, 2, 3]`. -/
theorem claim1_nbytes_strict_witness :
    nbytesExpect 2 [1, 2, 3] false = Except.ok (some (Match.new 0 2)) :=
  (claim1_nbytes_strict 2 [1, 2, 3] false).1.mpr (by simp)

/-- Witness for claim C2: the needle `[2]` matches `[1, 2, 3]` leftmost
at position 1. -/
theorem claim2_literal_leftmost_witness :
    bytesExpect [2] [1, 2, 3] false = Except.ok (some (Match.new 1 2)) :=
  (claim2_literal_leftmost [2] [1, 2, 3] false 1 (by simp)).1.mpr
    ⟨by decide, by decide⟩

/-- Witness for the amended claim C3 on the non-empty buffer `[1]`. -/
theorem claim3_empty_needle_amended_witness :
    bytesExpect [] [1] false = Except.ok (some (Match.new 0 0)) :=
  claim3_empty_needle_amended [1] false (by simp)

/-- Witness for claim C5 on a pattern accepted by the engine. -/
theorem claim5_error_taxonomy_witness :
    regexExpect compileStub "x" [0] false = Except.ok none :=
  (claim5_error_taxonomy compileStub "x" [0] false).2.2.1 (fun _ => none) rfl

/-- Witness for claim C6 at `NBytes(1)` on the buffer `[7]`. -/
theorem claim6_eof_flag_only_eof_witness :
    nbytesExpect 1 [7] true = nbytesExpect 1 [7] false :=
  (claim6_eof_flag_only_eof [7]).2.1 1

/-- Witness for claim C7 at the `Eof` needle on the buffer `[1]`. -/
theorem claim7_deterministic_witness :
    eofExpect [1] true = eofExpect [1] true :=
  (claim7_deterministic [1] [1] true true rfl rfl).1

/-- Witness for claim C10 at the `Eof` needle on the buffer `[5]`. -/
theorem claim10_match_well_formed_witness :
    (Match.new 0 1).start ≤ (Match.new 0 1).stop
    ∧ (Match.new 0 1).stop ≤ ([5] : List Nat).length :=
  (claim10_match_well_formed [5] true (Match.new 0 1)).1 rfl

end Expectrl
